import Mathlib

/-!
Shallow embedding of `src/b2eb/crop.py` (content-bounds detection and batch
image cropping), written to settle the specification claims about that file.

Modelling conventions:
* An image (`Img`) is the 2-D intensity grid the source calls `img_array`:
  the pixel values the detector analyses after the optional RGB-to-grayscale
  conversion (`np.mean(..., axis=2)`), as exact rationals.
* `np.mean(row) < threshold` is embedded as `rowSum < threshold * W`.  For
  integer-valued (or third-valued, after channel averaging) pixel data the
  two comparisons agree exactly: the exact mean is a rational with
  denominator at most `3·W`, so whenever it differs from the threshold it
  differs by at least `1/(3W)`, far above the float64 rounding error of the
  mean computation for any realistic image width.
* Python exceptions that the source does not catch are modelled as explicit
  `Outcome` constructors; the per-item `try/except` block is modelled by the
  per-item `Option Img` lookup (a `none` file is one whose open raises).
* Each `print` of the source is modelled as an `Ev` event in order.
-/

/-- The 2-D intensity grid (`img_array` in `find_content_bounds`): `H` rows,
`W` columns, `pix r c` the intensity at row `r`, column `c`. -/
structure Img where
  H : Nat
  W : Nat
  pix : Nat → Nat → ℚ

/-- `threshold = 250` from `find_content_bounds` (line 28). -/
def threshold : ℚ := 250

/-- `padding = 10` from `find_content_bounds` (line 42). -/
def padding : Nat := 10

/-- Sum of the intensities of row `r` (the numerator of `np.mean(img_array, axis=1)[r]`). -/
def rowSum (im : Img) (r : Nat) : ℚ := ∑ c ∈ Finset.range im.W, im.pix r c

/-- Sum of the intensities of column `c` (the numerator of `np.mean(img_array, axis=0)[c]`). -/
def colSum (im : Img) (c : Nat) : ℚ := ∑ r ∈ Finset.range im.H, im.pix r c

/-- Row `r` is a content row: its mean intensity is below the threshold,
expressed denominator-free as `rowSum < threshold * W`. -/
def isContentRow (im : Img) (r : Nat) : Bool := decide (rowSum im r < threshold * im.W)

/-- Column `c` is a content column. -/
def isContentCol (im : Img) (c : Nat) : Bool := decide (colSum im c < threshold * im.H)

/-- `rows = np.where(np.mean(img_array, axis=1) < threshold)[0]`: the ascending
list of content-row indices. -/
def contentRows (im : Img) : List Nat := (List.range im.H).filter (isContentRow im)

/-- `cols = np.where(np.mean(img_array, axis=0) < threshold)[0]`. -/
def contentCols (im : Img) : List Nat := (List.range im.W).filter (isContentCol im)

/-- `find_content_bounds` (crop.py lines 18-48).  Returns
`(left, top, right, bottom)` or `none` when either index list is empty.
`max (x - padding) 0` is natural-number truncated subtraction. -/
def find_content_bounds (im : Img) : Option (Nat × Nat × Nat × Nat) :=
  match (contentRows im).head?, (contentRows im).getLast?,
      (contentCols im).head?, (contentCols im).getLast? with
  | some top, some bottom, some left, some right =>
    some (left - padding, top - padding,
      min (right + padding) im.W, min (bottom + padding) im.H)
  | _, _, _, _ => none

/-- A crop box `(left, top, right, bottom)` as passed to `PIL.Image.crop`;
manual bounds from the command line are arbitrary integers. -/
abbrev Box := Int × Int × Int × Int

/-- `im.crop(box)` in PIL semantics: the result always has size
`(right - left) × (bottom - top)` (clamped to zero); pixels sampled outside
the source image are filled with intensity `0`.  Cropping never raises. -/
def cropImg (im : Img) : Box → Img
  | (l, t, r, b) =>
    { H := (b - t).toNat
      W := (r - l).toNat
      pix := fun i j =>
        let y : Int := t + i
        let x : Int := l + j
        if 0 ≤ y ∧ y < im.H ∧ 0 ≤ x ∧ x < im.W then im.pix y.toNat x.toNat else 0 }

/-- An `H × W` image all of whose pixels have intensity `v`. -/
def uniformImg (H W : Nat) (v : ℚ) : Img := ⟨H, W, fun _ _ => v⟩

/-! ### Python string ordering and the directory listing

`process_folder` sorts with Python `sorted`, which orders strings
lexicographically by Unicode code point, and filters with
`f.lower().endswith(".png")`. -/

/-- Lexicographic `≤` on code-point lists, exactly Python's string `<=`. -/
def pyLeL : List Nat → List Nat → Bool
  | [], _ => true
  | _ :: _, [] => false
  | a :: as, b :: bs => if a < b then true else if b < a then false else pyLeL as bs

/-- Python's `<=` on strings (comparison of code-point sequences). -/
def pyStrLe (a b : String) : Bool := pyLeL (a.data.map Char.toNat) (b.data.map Char.toNat)

/-- `pyStrLe` as a relation, for use with `List.insertionSort`. -/
def pyStrLeR (a b : String) : Prop := pyStrLe a b = true

instance : DecidableRel pyStrLeR := fun a b => by unfold pyStrLeR; infer_instance

/-- ASCII lowercasing of one code point (`str.lower` on ASCII names). -/
def lowerChar (n : Nat) : Nat := if 65 ≤ n ∧ n ≤ 90 then n + 32 else n

/-- `f.lower().endswith(".png")` (crop.py line 62): the last four lowercased
code points are `.`, `p`, `n`, `g`. -/
def isPng (s : String) : Bool :=
  let l := s.data.map (fun c => lowerChar c.toNat)
  decide (l.drop (l.length - 4) = [46, 112, 110, 103]) && decide (4 ≤ l.length)

/-- A directory of images: the unordered listing and, for each name, the
image stored there (`none` models a file whose open raises). -/
structure Folder where
  names : List String
  data : String → Option Img

/-- `sorted([f for f in os.listdir(input_folder) if f.lower().endswith(".png")])`
(crop.py line 62).  `sorted` is modelled by insertion sort under `pyStrLeR`;
on a total antisymmetric order every sort agrees with Python's. -/
def pngFiles (fol : Folder) : List String :=
  List.insertionSort pyStrLeR (fol.names.filter isPng)

/-! ### The run model: files written, events printed, outcome -/

/-- A file written to the output folder: a cropped PNG or the combined PDF. -/
inductive FileOut where
  | png (im : Img)
  | pdf (pages : List Img)

/-- One event per `print` of `process_folder`, in program order.
`summary` is the attempted-vs-succeeded report the specification describes;
it is part of the observation vocabulary so its absence can be stated, and
no code path of the source emits it. -/
inductive Ev where
  | noPng
  | usingManual (b : Box)
  | detectFail
  | gateShown (b : Box)
  | aborted
  | limiting (k : Int)
  | processingCount (n : Nat)
  | itemOk (i total : Nat) (name : String)
  | itemErr (i total : Nat) (name : String)
  | pdfCombined
  | summary (attempted succeeded : Nat)
deriving DecidableEq

/-- How the call to `process_folder` ended.  The `crash…` outcomes are the
uncaught Python exceptions of the corresponding lines. -/
inductive Outcome where
  | ok
  | noPngFiles
  | detectFailed
  | abortedByUser
  | crashIndexError
  | crashOpenRef
  | crashEmptyAssembly
deriving DecidableEq

/-- The observable effect of one `process_folder` call. -/
structure Result where
  dirs : List String
  written : List (String × FileOut)
  events : List Ev
  boundsUsed : Option Box
  outcome : Outcome

/-- Python indexing `l[k]`, with negative indices from the end;
`none` is an `IndexError`. -/
def pyIndex {α : Type} (l : List α) (k : Int) : Option α :=
  let i : Int := if k < 0 then k + l.length else k
  if 0 ≤ i then l[i.toNat]? else none

/-- Python slicing `l[:k]` for an integer `k`. -/
def pySliceTo {α : Type} (l : List α) (k : Int) : List α :=
  if 0 ≤ k then l.take k.toNat else l.take (l.length - (-k).toNat)

/-- `if limit: png_files = png_files[:limit]` (crop.py lines 91-93):
`None` and `0` are both falsy, so neither truncates. -/
def applyLimit (limit : Option Int) (files : List String) : List String :=
  match limit with
  | none => files
  | some k => if k = 0 then files else pySliceTo files k

/-- Output filename `f"cropped_{filename}"` joined to the output folder. -/
def outName (outDir name : String) : String := outDir ++ "/cropped_" ++ name

/-- The batch loop (crop.py lines 100-116): returns the files written, the
per-item events, and the retained in-memory crops (`images`), processing
`files` with 1-based counter `i` out of `total`. -/
def runLoop (fol : Folder) (outDir : String) (bounds : Box) (output_pdf : Bool)
    (total : Nat) : Nat → List String → List (String × FileOut) × List Ev × List Img
  | _, [] => ([], [], [])
  | i, name :: rest =>
    let done := runLoop fol outDir bounds output_pdf total (i + 1) rest
    match fol.data name with
    | some im =>
      let cropped := cropImg im bounds
      ((outName outDir name, FileOut.png cropped) :: done.1,
        Ev.itemOk i total name :: done.2.1,
        if output_pdf then cropped :: done.2.2 else done.2.2)
    | none => (done.1, Ev.itemErr i total name :: done.2.1, done.2.2)

/-- The per-item events of the loop, for statements about the event stream. -/
def loopEvs (fol : Folder) (total : Nat) : Nat → List String → List Ev
  | _, [] => []
  | i, name :: rest =>
    (match fol.data name with
      | some _ => Ev.itemOk i total name
      | none => Ev.itemErr i total name) :: loopEvs fol total (i + 1) rest

/-- The files the loop writes: one `cropped_<name>` per readable item, in
batch order, each the fixed-box crop of that item. -/
def itemWrites (fol : Folder) (outDir : String) (bounds : Box) (files : List String) :
    List (String × FileOut) :=
  files.filterMap fun name =>
    (fol.data name).map fun im => (outName outDir name, FileOut.png (cropImg im bounds))

/-- The in-memory crops retained for the PDF, in batch order. -/
def itemPages (fol : Folder) (bounds : Box) (files : List String) : List Img :=
  files.filterMap fun name => (fol.data name).map fun im => cropImg im bounds

/-- Bounds resolution (crop.py lines 70-77): a truthy `manual_bounds` wins,
otherwise `find_content_bounds` on the reference image, `none` on failure. -/
def resolveBounds (manual_bounds : Option Box) (refImg : Img) : Option (Box × List Ev) :=
  match manual_bounds with
  | some mb => some (mb, [Ev.usingManual mb])
  | none =>
    match find_content_bounds refImg with
    | some (l, t, r, b) => some (((l : Int), (t : Int), (r : Int), (b : Int)), [])
    | none => none

/-- `verify_idx or 0` (crop.py line 67): a falsy `verify_idx` (None or 0)
gives index 0. -/
def refIdxOf (vi : Option Int) : Int :=
  match vi with
  | none => 0
  | some k => if k = 0 then 0 else k

/-- The gate's output (crop.py lines 79-84): present exactly when the gate
is active, i.e. `verify_idx is not None`. -/
def gateEvsOf (vi : Option Int) (bounds : Box) : List Ev :=
  if vi.isSome then [Ev.gateShown bounds] else []

/-- The limit announcement (crop.py line 92): printed exactly when `limit`
is truthy. -/
def limEvsOf (lim : Option Int) : List Ev :=
  match lim with
  | none => []
  | some k => if k = 0 then [] else [Ev.limiting k]

/-- The tail of a run that has passed the gate (crop.py lines 95-122): the
batch loop over `files` followed by the optional PDF assembly, where
`images.pop(0)` on an empty list is an uncaught `IndexError`. -/
def loopStage (fol : Folder) (outF : String) (bounds : Box) (evs0 : List Ev)
    (pdf : Bool) (files : List String) : Result :=
  let done := runLoop fol outF bounds pdf files.length 1 files
  let evs := evs0 ++ Ev.processingCount files.length :: done.2.1
  if pdf then
    match done.2.2 with
    | [] => ⟨[outF], done.1, evs, some bounds, Outcome.crashEmptyAssembly⟩
    | first :: rest =>
      ⟨[outF], done.1 ++ [(outF ++ "/all-cropped.pdf", FileOut.pdf (first :: rest))],
        evs ++ [Ev.pdfCombined], some bounds, Outcome.ok⟩
  else ⟨[outF], done.1, evs, some bounds, Outcome.ok⟩

/-- `process_folder` (crop.py lines 51-122).  `userInput` is the operator's
line at the verification gate; `fol` is the input folder.  The output
directory `[output_folder]` is created first on every path. -/
def process_folder (fol : Folder) (output_folder : String)
    (manual_bounds : Option Box) (verify_idx : Option Int)
    (output_pdf : Bool) (limit : Option Int) (userInput : String) : Result :=
  -- Path(output_folder).mkdir(parents=True, exist_ok=True)
  let dirs := [output_folder]
  let png_files := pngFiles fol
  if png_files.isEmpty then
    { dirs := dirs, written := [], events := [Ev.noPng], boundsUsed := none,
      outcome := Outcome.noPngFiles }
  else
    match pyIndex png_files (refIdxOf verify_idx) with
    | none =>
      { dirs := dirs, written := [], events := [], boundsUsed := none,
        outcome := Outcome.crashIndexError }
    | some refName =>
      -- first_image = Image.open(first_image_path): raises on a bad file
      match fol.data refName with
      | none =>
        { dirs := dirs, written := [], events := [], boundsUsed := none,
          outcome := Outcome.crashOpenRef }
      | some refImg =>
        match resolveBounds manual_bounds refImg with
        | none =>
          { dirs := dirs, written := [], events := [Ev.detectFail], boundsUsed := none,
            outcome := Outcome.detectFailed }
        | some (bounds, evs0) =>
          -- verification gate (lines 79-88): `user_input.lower() == "q"` aborts
          if verify_idx.isSome && (userInput = "q" || userInput = "Q") then
            { dirs := dirs, written := [],
              events := evs0 ++ gateEvsOf verify_idx bounds ++ [Ev.aborted],
              boundsUsed := some bounds, outcome := Outcome.abortedByUser }
          else
            loopStage fol output_folder bounds
              (evs0 ++ gateEvsOf verify_idx bounds ++ limEvsOf limit) output_pdf
              (applyLimit limit png_files)

/-- Whether an attempted-vs-succeeded summary appears in an event stream. -/
def hasSummary (evs : List Ev) : Bool :=
  evs.any fun e => match e with
    | Ev.summary _ _ => true
    | _ => false



/-- Recognizer for per-item failure events. -/
def isErrEv : Ev -> Bool
  | Ev.itemErr _ _ _ => true
  | _ => false

/-- Recognizer for per-item success events. -/
def isOkEv : Ev -> Bool
  | Ev.itemOk _ _ _ => true
  | _ => false

/-! ### The worked example and concrete fixtures -/

/-- Reference image of the worked example: 1500 rows by 1000 columns of
white (255) background with a black (0) content block on rows 200–1300 and
columns 100–900. -/
def bigImg : Img :=
  ⟨1500, 1000, fun r c => if (200 ≤ r ∧ r ≤ 1300) ∧ (100 ≤ c ∧ c ≤ 900) then 0 else 255⟩

/-! ### Concrete fixtures for witnesses and counterexamples -/

/-- A readable 10×10 all-white image. -/
def imA : Img := uniformImg 10 10 255

/-- Folder with one readable file. -/
def fol1 : Folder := ⟨["a.png"], fun n => if n = "a.png" then some imA else none⟩

/-- Three PNG files listed out of order; `b.png` is corrupt (its open raises),
the other two are readable. -/
def fol3 : Folder :=
  ⟨["b.png", "a.png", "c.png"], fun n =>
    if n = "b.png" then none
    else if n = "a.png" || n = "c.png" then some imA else none⟩

/-- Three PNG files where the first in sorted order (`a.png`) is corrupt. -/
def folBadRef : Folder :=
  ⟨["a.png", "b.png", "c.png"], fun n =>
    if n = "a.png" then none
    else if n = "b.png" || n = "c.png" then some imA else none⟩

/-- Two PNG files: `a.png` corrupt, `b.png` readable. -/
def fol2 : Folder :=
  ⟨["a.png", "b.png"], fun n =>
    if n = "a.png" then none
    else if n = "b.png" then some imA else none⟩

/-- All three names readable; listed out of lexicographic order. -/
def folW : Folder := ⟨["b.png", "a.png", "c.png"], fun _ => some imA⟩

/-! ### Order facts about the Python string comparison -/

theorem pyLeL_total (x y : List Nat) : pyLeL x y = true ∨ pyLeL y x = true := by
  induction x generalizing y with
  | nil => left; rfl
  | cons a as ih =>
    cases y with
    | nil => right; rfl
    | cons b bs =>
      by_cases hab : a < b
      · left; simp [pyLeL, hab]
      · by_cases hba : b < a
        · right; simp [pyLeL, hba]
        · have : a = b := by omega
          subst this
          simpa [pyLeL] using ih bs

theorem pyLeL_trans (x y z : List Nat) (hxy : pyLeL x y = true) (hyz : pyLeL y z = true) :
    pyLeL x z = true := by
  induction x generalizing y z with
  | nil => rfl
  | cons a as ih =>
    cases y with
    | nil => simp [pyLeL] at hxy
    | cons b bs =>
      cases z with
      | nil => simp [pyLeL] at hyz
      | cons c cs =>
        simp only [pyLeL] at hxy hyz ⊢
        by_cases hab : a < b <;> by_cases hbc : b < c <;>
          by_cases hba : b < a <;> by_cases hcb : c < b <;>
            simp_all <;> first
              | omega
              | (have : a < c := by omega; simp [this])
              | (have hac : ¬a < c := by omega
                 have hca : ¬c < a := by omega
                 have : a = b := by omega
                 have : b = c := by omega
                 simp_all
                 exact ih bs cs hxy hyz)

instance : IsTotal String pyStrLeR := ⟨fun a b => pyLeL_total _ _⟩

instance : IsTrans String pyStrLeR := ⟨fun _ _ _ h1 h2 => pyLeL_trans _ _ _ h1 h2⟩

/-! ### Generic list facts -/

theorem mem_of_getLast?_eq {α : Type} {l : List α} {a : α} (h : l.getLast? = some a) :
    a ∈ l := by
  cases l with
  | nil => simp at h
  | cons x xs =>
    rw [List.getLast?_eq_getLast _ (List.cons_ne_nil x xs)] at h
    exact (Option.some_inj.mp h) ▸ List.getLast_mem _

theorem head?_le_getLast? {l : List Nat} (hp : l.Pairwise (· < ·)) {a b : Nat}
    (ha : l.head? = some a) (hb : l.getLast? = some b) : a ≤ b := by
  cases l with
  | nil => simp at ha
  | cons x xs =>
    obtain rfl : x = a := by simpa using ha
    rcases List.mem_cons.mp (mem_of_getLast?_eq hb) with h1 | h2
    · omega
    · exact le_of_lt ((List.pairwise_cons.mp hp).1 _ h2)

/-! ### Facts about the content-row and content-column lists -/

theorem contentRows_pairwise (im : Img) : (contentRows im).Pairwise (· < ·) :=
  List.Pairwise.sublist (List.filter_sublist _) (List.pairwise_lt_range _)

theorem contentCols_pairwise (im : Img) : (contentCols im).Pairwise (· < ·) :=
  List.Pairwise.sublist (List.filter_sublist _) (List.pairwise_lt_range _)

theorem mem_contentRows_lt {im : Img} {r : Nat} (h : r ∈ contentRows im) : r < im.H :=
  List.mem_range.mp (List.mem_filter.mp h).1

theorem mem_contentCols_lt {im : Img} {c : Nat} (h : c ∈ contentCols im) : c < im.W :=
  List.mem_range.mp (List.mem_filter.mp h).1

/-! ### Loop characterization -/

theorem runLoop_eq (fol : Folder) (outDir : String) (b : Box) (pdf : Bool) (total : Nat)
    (i : Nat) (files : List String) :
    runLoop fol outDir b pdf total i files =
      (itemWrites fol outDir b files, loopEvs fol total i files,
        if pdf then itemPages fol b files else []) := by
  induction files generalizing i with
  | nil => simp [runLoop, itemWrites, loopEvs, itemPages]
  | cons name rest ih =>
    cases h : fol.data name with
    | none =>
      simp [runLoop, h, ih, itemWrites, loopEvs, itemPages, List.filterMap_cons]
    | some im =>
      simp [runLoop, h, ih, itemWrites, loopEvs, itemPages, List.filterMap_cons]
      cases pdf <;> simp

theorem loopEvs_countP_err (fol : Folder) (total : Nat) (i : Nat) (files : List String) :
    (loopEvs fol total i files).countP isErrEv =
      files.countP (fun f => (fol.data f).isNone) := by
  induction files generalizing i with
  | nil => rfl
  | cons name rest ih =>
    cases h : fol.data name <;>
      simp [loopEvs, h, List.countP_cons, ih, isErrEv, isOkEv]

theorem loopEvs_countP_ok (fol : Folder) (total : Nat) (i : Nat) (files : List String) :
    (loopEvs fol total i files).countP isOkEv =
      files.countP (fun f => (fol.data f).isSome) := by
  induction files generalizing i with
  | nil => rfl
  | cons name rest ih =>
    cases h : fol.data name <;>
      simp [loopEvs, h, List.countP_cons, ih, isErrEv, isOkEv]

theorem loopEvs_no_summary (fol : Folder) (total : Nat) (i : Nat) (files : List String) :
    hasSummary (loopEvs fol total i files) = false := by
  induction files generalizing i with
  | nil => rfl
  | cons name rest ih =>
    cases h : fol.data name <;>
      simp [loopEvs, hasSummary, h] <;>
        simpa [hasSummary] using ih (i + 1)

theorem itemWrites_length (fol : Folder) (outDir : String) (b : Box) (files : List String) :
    (itemWrites fol outDir b files).length =
      files.countP (fun f => (fol.data f).isSome) := by
  induction files with
  | nil => rfl
  | cons name rest ih =>
    cases h : fol.data name <;> simp [itemWrites, List.filterMap_cons, h, List.countP_cons] <;>
      simpa [itemWrites] using ih

theorem itemWrites_skip (fol : Folder) (outDir : String) (b : Box) (files : List String)
    (bad : String) (hbad : fol.data bad = none) :
    itemWrites fol outDir b files =
      itemWrites fol outDir b (files.filter (fun f => f ≠ bad)) := by
  induction files with
  | nil => rfl
  | cons name rest ih =>
    by_cases hname : name = bad
    · subst hname
      simp [itemWrites, List.filterMap_cons, List.filter_cons, hbad] at ih ⊢
      exact ih
    · cases h : fol.data name <;>
        simp [itemWrites, List.filterMap_cons, List.filter_cons, h, hname] <;>
          simpa [itemWrites] using ih

theorem mem_itemWrites (fol : Folder) (outDir : String) (b : Box) (files : List String)
    (f : String) (hf : f ∈ files) (im : Img) (him : fol.data f = some im) :
    (outName outDir f, FileOut.png (cropImg im b)) ∈ itemWrites fol outDir b files := by
  induction files with
  | nil => simp at hf
  | cons name rest ih =>
    rcases List.mem_cons.mp hf with rfl | hmem
    · simp [itemWrites, List.filterMap_cons, him]
    · cases h : fol.data name <;>
        simp [itemWrites, List.filterMap_cons, h] <;>
          [skip; right] <;> simpa [itemWrites] using ih hmem

/-! ### Detection on an exact content interval -/

theorem filter_range_interval (p : Nat → Bool) (n a b : Nat) (hab : a ≤ b) (hbn : b < n)
    (hp : ∀ r, r < n → (p r = true ↔ a ≤ r ∧ r ≤ b)) :
    (List.range n).filter p = List.range' a (b + 1 - a) := by
  apply List.eq_of_perm_of_sorted (r := (· ≤ ·))
  · rw [List.perm_ext_iff_of_nodup ((List.nodup_range n).filter p) (List.nodup_range' a _)]
    intro x
    rw [List.mem_filter, List.mem_range, List.mem_range'_1]
    constructor
    · rintro ⟨hx, hpx⟩
      have := (hp x hx).mp hpx
      omega
    · rintro ⟨h1, h2⟩
      have hx : x < n := by omega
      exact ⟨hx, (hp x hx).mpr (by omega)⟩
  · exact (List.Pairwise.sublist (List.filter_sublist _) (List.pairwise_lt_range n)).imp
      le_of_lt
  · exact (List.pairwise_lt_range' a _).imp le_of_lt

theorem head?_getLast?_range' (a k : Nat) (hk : 0 < k) :
    (List.range' a k).head? = some a ∧ (List.range' a k).getLast? = some (a + k - 1) := by
  constructor
  · rw [List.head?_range']
    simp [Nat.pos_iff_ne_zero.mp hk]
  · obtain ⟨m, rfl⟩ : ∃ m, k = m + 1 := ⟨k - 1, by omega⟩
    rw [List.range'_concat, List.getLast?_concat]
    congr 1
    omega

/-- When the content rows are exactly `[r0, r1]` and the content columns
exactly `[c0, c1]`, detection returns that rectangle padded outward and
clamped to the image dimensions. -/
theorem find_content_bounds_interval (im : Img) (r0 r1 c0 c1 : Nat)
    (hr01 : r0 ≤ r1) (hr1 : r1 < im.H) (hc01 : c0 ≤ c1) (hc1 : c1 < im.W)
    (hr : ∀ r, r < im.H → (isContentRow im r = true ↔ r0 ≤ r ∧ r ≤ r1))
    (hc : ∀ c, c < im.W → (isContentCol im c = true ↔ c0 ≤ c ∧ c ≤ c1)) :
    find_content_bounds im =
      some (c0 - padding, r0 - padding,
        min (c1 + padding) im.W, min (r1 + padding) im.H) := by
  have hrows : contentRows im = List.range' r0 (r1 + 1 - r0) :=
    filter_range_interval _ _ _ _ hr01 hr1 hr
  have hcols : contentCols im = List.range' c0 (c1 + 1 - c0) :=
    filter_range_interval _ _ _ _ hc01 hc1 hc
  have h12 := head?_getLast?_range' r0 (r1 + 1 - r0) (by omega)
  have h34 := head?_getLast?_range' c0 (c1 + 1 - c0) (by omega)
  have e2 : r0 + (r1 + 1 - r0) - 1 = r1 := by omega
  have e4 : c0 + (c1 + 1 - c0) - 1 = c1 := by omega
  rw [e2] at h12
  rw [e4] at h34
  unfold find_content_bounds
  rw [hrows, hcols, h12.1, h12.2, h34.1, h34.2]

/-! ### Detection on a uniform image -/

theorem rowSum_uniform (H W : Nat) (v : ℚ) (r : Nat) :
    rowSum (uniformImg H W v) r = W * v := by
  simp [rowSum, uniformImg, Finset.sum_const, nsmul_eq_mul]

theorem colSum_uniform (H W : Nat) (v : ℚ) (c : Nat) :
    colSum (uniformImg H W v) c = H * v := by
  simp [colSum, uniformImg, Finset.sum_const, nsmul_eq_mul]

theorem isContentRow_uniform (H W : Nat) (v : ℚ) (hW : 0 < W) (r : Nat) :
    isContentRow (uniformImg H W v) r = decide (v < threshold) := by
  unfold isContentRow
  rw [decide_eq_decide, rowSum_uniform]
  show (W : ℚ) * v < threshold * (uniformImg H W v).W ↔ v < threshold
  have hW' : (0 : ℚ) < W := by exact_mod_cast hW
  rw [show ((uniformImg H W v).W : ℚ) = (W : ℚ) from rfl, mul_comm (threshold) ((W : ℚ)),
    mul_lt_mul_left hW']

theorem isContentCol_uniform (H W : Nat) (v : ℚ) (hH : 0 < H) (c : Nat) :
    isContentCol (uniformImg H W v) c = decide (v < threshold) := by
  unfold isContentCol
  rw [decide_eq_decide, colSum_uniform]
  show (H : ℚ) * v < threshold * (uniformImg H W v).H ↔ v < threshold
  have hH' : (0 : ℚ) < H := by exact_mod_cast hH
  rw [show ((uniformImg H W v).H : ℚ) = (H : ℚ) from rfl, mul_comm (threshold) ((H : ℚ)),
    mul_lt_mul_left hH']

/-- On a uniform image, detection fails exactly when the uniform intensity is
at or above the threshold; below it, every row and column is content and the
returned rectangle is the full image `(0, 0, W, H)`. -/
theorem find_content_bounds_uniform (H W : Nat) (v : ℚ) (hH : 0 < H) (hW : 0 < W) :
    find_content_bounds (uniformImg H W v) =
      if v < threshold then some (0, 0, W, H) else none := by
  by_cases hv : v < threshold
  · rw [if_pos hv]
    have h := find_content_bounds_interval (uniformImg H W v) 0 (H - 1) 0 (W - 1)
      (by omega) (by show H - 1 < H; omega) (by omega) (by show W - 1 < W; omega)
      (fun r hr => by
        have hr' : r < H := hr
        rw [isContentRow_uniform H W v hW]
        simp [hv]
        omega)
      (fun c hc => by
        have hc' : c < W := hc
        rw [isContentCol_uniform H W v hH]
        simp [hv]
        omega)
    rw [h]
    have e1 : min (W - 1 + padding) (uniformImg H W v).W = W := by
      show min (W - 1 + padding) W = W
      unfold padding
      omega
    have e2 : min (H - 1 + padding) (uniformImg H W v).H = H := by
      show min (H - 1 + padding) H = H
      unfold padding
      omega
    rw [e1, e2]
    simp [padding]
  · rw [if_neg hv]
    have hrows : contentRows (uniformImg H W v) = [] := by
      unfold contentRows
      rw [List.filter_eq_nil_iff]
      intro r _
      rw [isContentRow_uniform H W v hW]
      simpa using hv
    unfold find_content_bounds
    rw [hrows]
    rfl

/-! ### The specification's worked example: a 1000 × 1500 page -/

theorem sum_range_ite_interval (n a b : Nat) (x y : ℚ) (hab : a ≤ b) (hbn : b < n) :
    ∑ c ∈ Finset.range n, (if a ≤ c ∧ c ≤ b then x else y) =
      (b + 1 - a : Nat) * x + (n - (b + 1 - a) : Nat) * y := by
  rw [Finset.sum_ite]
  have h1 : (Finset.range n).filter (fun c => a ≤ c ∧ c ≤ b) = Finset.Icc a b := by
    ext c
    simp only [Finset.mem_filter, Finset.mem_range, Finset.mem_Icc]
    omega
  have h2 : ((Finset.range n).filter (fun c => ¬(a ≤ c ∧ c ≤ b))).card = n - (b + 1 - a) := by
    have h3 := Finset.filter_card_add_filter_neg_card_eq_card
      (s := Finset.range n) (p := fun c => a ≤ c ∧ c ≤ b)
    rw [h1, Nat.card_Icc, Finset.card_range] at h3
    omega
  rw [h1, Finset.sum_const, Finset.sum_const, h2, Nat.card_Icc, nsmul_eq_mul, nsmul_eq_mul]

theorem bigImg_rowSum_content (r : Nat) (h : 200 ≤ r ∧ r ≤ 1300) :
    rowSum bigImg r = 199 * 255 := by
  show (∑ c ∈ Finset.range 1000,
      (if (200 ≤ r ∧ r ≤ 1300) ∧ (100 ≤ c ∧ c ≤ 900) then (0 : ℚ) else 255)) = 199 * 255
  rw [Finset.sum_congr rfl
    (fun c _ => if_congr (and_iff_right h) rfl rfl)]
  rw [sum_range_ite_interval 1000 100 900 0 255 (by omega) (by omega)]
  norm_num

theorem bigImg_rowSum_blank (r : Nat) (h : ¬(200 ≤ r ∧ r ≤ 1300)) :
    rowSum bigImg r = 1000 * 255 := by
  show (∑ c ∈ Finset.range 1000,
      (if (200 ≤ r ∧ r ≤ 1300) ∧ (100 ≤ c ∧ c ≤ 900) then (0 : ℚ) else 255)) = 1000 * 255
  rw [Finset.sum_congr rfl
    (fun c _ => if_neg (fun hc => h hc.1))]
  rw [Finset.sum_const, Finset.card_range, nsmul_eq_mul]
  norm_num

theorem bigImg_colSum_content (c : Nat) (h : 100 ≤ c ∧ c ≤ 900) :
    colSum bigImg c = 399 * 255 := by
  show (∑ r ∈ Finset.range 1500,
      (if (200 ≤ r ∧ r ≤ 1300) ∧ (100 ≤ c ∧ c ≤ 900) then (0 : ℚ) else 255)) = 399 * 255
  rw [Finset.sum_congr rfl
    (fun r _ => if_congr (and_iff_left h) rfl rfl)]
  rw [sum_range_ite_interval 1500 200 1300 0 255 (by omega) (by omega)]
  norm_num

theorem bigImg_colSum_blank (c : Nat) (h : ¬(100 ≤ c ∧ c ≤ 900)) :
    colSum bigImg c = 1500 * 255 := by
  show (∑ r ∈ Finset.range 1500,
      (if (200 ≤ r ∧ r ≤ 1300) ∧ (100 ≤ c ∧ c ≤ 900) then (0 : ℚ) else 255)) = 1500 * 255
  rw [Finset.sum_congr rfl
    (fun r _ => if_neg (fun hc => h hc.2))]
  rw [Finset.sum_const, Finset.card_range, nsmul_eq_mul]
  norm_num

theorem bigImg_row_char (r : Nat) (hr : r < bigImg.H) :
    (isContentRow bigImg r = true ↔ 200 ≤ r ∧ r ≤ 1300) := by
  unfold isContentRow
  rw [decide_eq_true_iff]
  by_cases h : 200 ≤ r ∧ r ≤ 1300
  · rw [bigImg_rowSum_content r h]
    show (199 * 255 : ℚ) < 250 * (1000 : Nat) ↔ _
    norm_num
    exact h
  · rw [bigImg_rowSum_blank r h]
    show (1000 * 255 : ℚ) < 250 * (1000 : Nat) ↔ _
    norm_num
    omega

theorem bigImg_col_char (c : Nat) (hc : c < bigImg.W) :
    (isContentCol bigImg c = true ↔ 100 ≤ c ∧ c ≤ 900) := by
  unfold isContentCol
  rw [decide_eq_true_iff]
  by_cases h : 100 ≤ c ∧ c ≤ 900
  · rw [bigImg_colSum_content c h]
    show (399 * 255 : ℚ) < 250 * (1500 : Nat) ↔ _
    norm_num
    exact h
  · rw [bigImg_colSum_blank c h]
    show (1500 * 255 : ℚ) < 250 * (1500 : Nat) ↔ _
    norm_num
    omega

/-! ### Characterizing a run that reaches the batch loop -/

/-- `loopStage` in terms of the per-item descriptions `itemWrites`,
`loopEvs` and `itemPages`. -/
theorem loopStage_eq (fol : Folder) (outF : String) (bounds : Box) (evs0 : List Ev)
    (pdf : Bool) (files : List String) :
    loopStage fol outF bounds evs0 pdf files =
      let w := itemWrites fol outF bounds files
      let evs := evs0 ++ Ev.processingCount files.length :: loopEvs fol files.length 1 files
      if pdf then
        match itemPages fol bounds files with
        | [] => ⟨[outF], w, evs, some bounds, Outcome.crashEmptyAssembly⟩
        | first :: rest =>
          ⟨[outF], w ++ [(outF ++ "/all-cropped.pdf", FileOut.pdf (first :: rest))],
            evs ++ [Ev.pdfCombined], some bounds, Outcome.ok⟩
      else ⟨[outF], w, evs, some bounds, Outcome.ok⟩ := by
  unfold loopStage
  rw [runLoop_eq]
  cases pdf with
  | false => rfl
  | true =>
    simp only []
    cases itemPages fol bounds files <;> rfl

theorem process_folder_char (fol : Folder) (outF : String) (mb : Option Box)
    (vi : Option Int) (pdf : Bool) (lim : Option Int) (u : String)
    (refName : String) (refImg : Img) (bounds : Box) (evs0 : List Ev)
    (hne : (pngFiles fol).isEmpty = false)
    (href : pyIndex (pngFiles fol) (refIdxOf vi) = some refName)
    (hopen : fol.data refName = some refImg)
    (hbounds : resolveBounds mb refImg = some (bounds, evs0))
    (hgate : (vi.isSome && (decide (u = "q") || decide (u = "Q"))) = false) :
    process_folder fol outF mb vi pdf lim u =
      loopStage fol outF bounds (evs0 ++ gateEvsOf vi bounds ++ limEvsOf lim) pdf
        (applyLimit lim (pngFiles fol)) := by
  unfold process_folder
  simp only [hne, Bool.false_eq_true, if_false, href, hopen, hbounds, hgate]

/-! ### Claim theorems -/

/-- C1 (amended): detection on a uniform image fails precisely when the
uniform intensity is at or above the brightness threshold; for a uniform
intensity below the threshold every row and column counts as content, and
the detector returns the full-image rectangle rather than failing. -/
theorem c1_uniform_detection (H W : Nat) (v : ℚ) (hH : 0 < H) (hW : 0 < W) :
    find_content_bounds (uniformImg H W v) =
      if v < threshold then some (0, 0, W, H) else none :=
  find_content_bounds_uniform H W v hH hW

/-- C1 counterexample: a uniform all-black 3×3 image (intensity 0, below the
threshold) makes the detector return a rectangle — the claim that every
uniform image yields the no-content signal is false. -/
theorem c1_uniform_detection_counterexample :
    find_content_bounds (uniformImg 3 3 0) ≠ none := by
  rw [find_content_bounds_uniform 3 3 0 (by norm_num) (by norm_num)]
  norm_num [threshold]
  exact fun h => Option.noConfusion h

theorem c1_uniform_detection_witness :
    find_content_bounds (uniformImg 3 3 255) = none ∧
      find_content_bounds (uniformImg 3 3 0) = some (0, 0, 3, 3) := by
  constructor
  · rw [c1_uniform_detection 3 3 255 (by norm_num) (by norm_num)]
    norm_num [threshold]
  · rw [c1_uniform_detection 3 3 0 (by norm_num) (by norm_num)]
    norm_num [threshold]

/-- C7: when the content rows are exactly the interval `[r0, r1]` and the
content columns exactly `[c0, c1]`, detection returns that rectangle
expanded outward by exactly `padding` on all sides (with the left/top
expansion clamped at 0 by natural subtraction) and clamped to the image
dimensions on the right/bottom. -/
theorem c7_detect_interval (im : Img) (r0 r1 c0 c1 : Nat)
    (hr01 : r0 ≤ r1) (hr1 : r1 < im.H) (hc01 : c0 ≤ c1) (hc1 : c1 < im.W)
    (hr : ∀ r, r < im.H → (isContentRow im r = true ↔ r0 ≤ r ∧ r ≤ r1))
    (hc : ∀ c, c < im.W → (isContentCol im c = true ↔ c0 ≤ c ∧ c ≤ c1)) :
    find_content_bounds im =
      some (c0 - padding, r0 - padding,
        min (c1 + padding) im.W, min (r1 + padding) im.H) :=
  find_content_bounds_interval im r0 r1 c0 c1 hr01 hr1 hc01 hc1 hr hc

/-- C7 witness: the worked example — 1000×1500 page, content rows 200–1300,
content columns 100–900, padding 10 — yields `(90, 190, 910, 1310)`. -/
theorem c7_detect_interval_witness :
    find_content_bounds bigImg = some (90, 190, 910, 1310) := by
  have h := c7_detect_interval bigImg 200 1300 100 900
    (by norm_num) (by show (1300 : Nat) < 1500; norm_num)
    (by norm_num) (by show (900 : Nat) < 1000; norm_num)
    bigImg_row_char bigImg_col_char
  have e : min (900 + padding) bigImg.W = 910 ∧ min (1300 + padding) bigImg.H = 1310 := by
    unfold padding
    exact ⟨by show min 910 1000 = 910; norm_num, by show min 1310 1500 = 1310; norm_num⟩
  rw [e.1, e.2] at h
  simpa [padding] using h

/-- C8: every rectangle the detector returns satisfies
`0 ≤ left < right ≤ W` and `0 ≤ top < bottom ≤ H`. -/
theorem c8_rectangle_invariant (im : Img) (l t r b : Nat)
    (h : find_content_bounds im = some (l, t, r, b)) :
    (0 ≤ l ∧ l < r ∧ r ≤ im.W) ∧ (0 ≤ t ∧ t < b ∧ b ≤ im.H) := by
  unfold find_content_bounds at h
  cases h1 : (contentRows im).head? with
  | none => rw [h1] at h; simp at h
  | some r0 =>
  cases h2 : (contentRows im).getLast? with
  | none => rw [h1, h2] at h; simp at h
  | some r1 =>
  cases h3 : (contentCols im).head? with
  | none => rw [h1, h2, h3] at h; simp at h
  | some c0 =>
  cases h4 : (contentCols im).getLast? with
  | none => rw [h1, h2, h3, h4] at h; simp at h
  | some c1 =>
  rw [h1, h2, h3, h4] at h
  simp only [Option.some.injEq, Prod.mk.injEq] at h
  obtain ⟨hl, ht, hr, hb⟩ := h
  subst hl ht hr hb
  have hrr : r0 ≤ r1 := head?_le_getLast? (contentRows_pairwise im) h1 h2
  have hcc : c0 ≤ c1 := head?_le_getLast? (contentCols_pairwise im) h3 h4
  have hr1H : r1 < im.H := mem_contentRows_lt (mem_of_getLast?_eq h2)
  have hc1W : c1 < im.W := mem_contentCols_lt (mem_of_getLast?_eq h4)
  refine ⟨⟨Nat.zero_le _, ?_, min_le_right _ _⟩, ⟨Nat.zero_le _, ?_, min_le_right _ _⟩⟩
  · rw [lt_min_iff]
    unfold padding
    constructor <;> omega
  · rw [lt_min_iff]
    unfold padding
    constructor <;> omega

theorem c8_rectangle_invariant_witness :
    ((0 : Nat) ≤ 0 ∧ 0 < 3 ∧ 3 ≤ (uniformImg 3 3 0).W) ∧
      ((0 : Nat) ≤ 0 ∧ 0 < 3 ∧ 3 ≤ (uniformImg 3 3 0).H) :=
  c8_rectangle_invariant (uniformImg 3 3 0) 0 0 3 3
    (by rw [find_content_bounds_uniform 3 3 0 (by norm_num) (by norm_num)]
        norm_num [threshold])

theorem loopStage_dirs (fol : Folder) (outF : String) (bounds : Box) (evs0 : List Ev)
    (pdf : Bool) (files : List String) :
    (loopStage fol outF bounds evs0 pdf files).dirs = [outF] := by
  simp only [loopStage]
  split
  · split <;> rfl
  · rfl

/-- C10: the output directory is created as the very first action of every
run, so it is present in the result's created-directories list on every
path: no PNG files, reference index error, unreadable reference, detection
failure, operator abort, assembly crash, and normal completion alike. -/
theorem c10_output_dir_always (fol : Folder) (outF : String) (mb : Option Box)
    (vi : Option Int) (pdf : Bool) (lim : Option Int) (u : String) :
    (process_folder fol outF mb vi pdf lim u).dirs = [outF] := by
  unfold process_folder
  dsimp only
  repeat first
    | rfl
    | apply loopStage_dirs
    | split

/-! ### Small helper lemmas about the run -/

theorem pyIndex_zero {α : Type} (l : List α) : pyIndex l 0 = l.head? := by
  unfold pyIndex
  simp only [show ¬((0 : Int) < 0) from by norm_num, if_false, le_refl, if_pos, Int.toNat_zero]
  cases l <;> simp

theorem resolveBounds_manual (mb : Box) (im : Img) :
    resolveBounds (some mb) im = some (mb, [Ev.usingManual mb]) := rfl

/-- C2 (amended): a caller-supplied override rectangle that extends beyond
the image dimensions is NOT clamped — it is applied exactly as given
(`boundsUsed = some b`) — yet every readable item still succeeds, because
`PIL.Image.crop` accepts any box and fills out-of-range pixels instead of
raising an out-of-range error. -/
theorem c2_override_unclamped (fol : Folder) (outF : String) (b : Box) (u : String)
    (hne : (pngFiles fol).isEmpty = false)
    (hgood : ∀ f ∈ pngFiles fol, (fol.data f).isSome) :
    (process_folder fol outF (some b) none false none u).outcome = Outcome.ok ∧
    (process_folder fol outF (some b) none false none u).boundsUsed = some b ∧
    (process_folder fol outF (some b) none false none u).written =
      itemWrites fol outF b (pngFiles fol) ∧
    (process_folder fol outF (some b) none false none u).events.countP isErrEv = 0 := by
  obtain ⟨f0, rest, hf⟩ : ∃ f0 rest, pngFiles fol = f0 :: rest := by
    cases hfl : pngFiles fol with
    | nil => rw [hfl] at hne; simp at hne
    | cons a l => exact ⟨a, l, rfl⟩
  have href : pyIndex (pngFiles fol) (refIdxOf none) = some f0 := by
    show pyIndex (pngFiles fol) 0 = some f0
    rw [pyIndex_zero, hf]
    rfl
  have hm : f0 ∈ pngFiles fol := by rw [hf]; exact List.mem_cons_self f0 rest
  obtain ⟨refImg, hopen⟩ := Option.isSome_iff_exists.mp (hgood f0 hm)
  have hchar := process_folder_char fol outF (some b) none false none u f0 refImg b
    [Ev.usingManual b] hne href hopen (resolveBounds_manual b refImg) rfl
  rw [hchar, loopStage_eq]
  refine ⟨rfl, rfl, rfl, ?_⟩
  show (([Ev.usingManual b] ++ gateEvsOf none b ++ limEvsOf none) ++
    Ev.processingCount _ :: loopEvs fol _ 1 (applyLimit none (pngFiles fol))).countP isErrEv = 0
  rw [List.countP_append, List.countP_cons]
  show (0 + ((loopEvs fol _ 1 (pngFiles fol)).countP isErrEv + 0)) = 0
  rw [loopEvs_countP_err]
  have : (pngFiles fol).countP (fun f => (fol.data f).isNone) = 0 := by
    rw [List.countP_eq_zero]
    intro f hfm
    have hs := hgood f hfm
    intro hnone
    rw [Option.isNone_iff_eq_none] at hnone
    rw [hnone] at hs
    simp at hs
  omega

/-- C2 counterexample: a 10×10 image cropped with the override box
`(0, 0, 5000, 5000)`: the run succeeds, but the box is used as-is and the
written image is 5000×5000 — it was not clamped to the 10×10 bounds. -/
theorem c2_override_unclamped_counterexample :
    (process_folder fol1 "out" (some (0, 0, 5000, 5000)) none false none "").outcome
        = Outcome.ok ∧
    (process_folder fol1 "out" (some (0, 0, 5000, 5000)) none false none "").boundsUsed
        = some (0, 0, 5000, 5000) ∧
    ((process_folder fol1 "out" (some (0, 0, 5000, 5000)) none false none "").written.map
      (fun p => match p.2 with | FileOut.png im => (im.W, im.H) | FileOut.pdf _ => (0, 0)))
        = [(5000, 5000)] ∧
    ¬(5000 ≤ imA.W) := by
  refine ⟨by decide, by decide, ?_, by decide⟩
  rfl

theorem c2_override_unclamped_witness :
    (process_folder fol1 "out" (some (0, 0, 5000, 5000)) none false none "").outcome
        = Outcome.ok ∧
    (process_folder fol1 "out" (some (0, 0, 5000, 5000)) none false none "").boundsUsed
        = some (0, 0, 5000, 5000) ∧
    (process_folder fol1 "out" (some (0, 0, 5000, 5000)) none false none "").written =
      itemWrites fol1 "out" (0, 0, 5000, 5000) (pngFiles fol1) ∧
    (process_folder fol1 "out" (some (0, 0, 5000, 5000)) none false none "").events.countP
      isErrEv = 0 :=
  c2_override_unclamped fol1 "out" (0, 0, 5000, 5000) "" (by decide) (by decide)

theorem hasSummary_append (a b : List Ev) :
    hasSummary (a ++ b) = (hasSummary a || hasSummary b) := List.any_append

theorem gateEvsOf_no_summary (vi : Option Int) (b : Box) :
    hasSummary (gateEvsOf vi b) = false := by
  unfold gateEvsOf
  split <;> rfl

theorem limEvsOf_no_summary (lim : Option Int) :
    hasSummary (limEvsOf lim) = false := by
  unfold limEvsOf
  cases lim with
  | none => rfl
  | some k =>
    dsimp only
    split <;> rfl

theorem resolveBounds_no_summary {mb : Option Box} {im : Img} {b : Box} {e : List Ev}
    (h : resolveBounds mb im = some (b, e)) : hasSummary e = false := by
  unfold resolveBounds at h
  cases mb with
  | some m =>
    simp only [Option.some.injEq, Prod.mk.injEq] at h
    rw [← h.2]
    rfl
  | none =>
    cases hf : find_content_bounds im with
    | none => rw [hf] at h; simp at h
    | some q =>
      obtain ⟨l, t, r, bo⟩ := q
      rw [hf] at h
      simp only [Option.some.injEq, Prod.mk.injEq] at h
      rw [← h.2]
      rfl

theorem loopStage_no_summary (fol : Folder) (outF : String) (bounds : Box)
    (evs0 : List Ev) (pdf : Bool) (files : List String)
    (h0 : hasSummary evs0 = false) :
    hasSummary (loopStage fol outF bounds evs0 pdf files).events = false := by
  have hl := loopEvs_no_summary fol files.length 1 files
  rw [loopStage_eq]
  cases pdf with
  | false =>
    show hasSummary (evs0 ++ Ev.processingCount files.length ::
      loopEvs fol files.length 1 files) = false
    rw [hasSummary_append, Bool.or_eq_false_iff]
    exact ⟨h0, by simpa [hasSummary] using hl⟩
  | true =>
    dsimp only
    cases hp : itemPages fol bounds files with
    | nil =>
      show hasSummary (evs0 ++ Ev.processingCount files.length ::
        loopEvs fol files.length 1 files) = false
      rw [hasSummary_append, Bool.or_eq_false_iff]
      exact ⟨h0, by simpa [hasSummary] using hl⟩
    | cons f r =>
      show hasSummary ((evs0 ++ Ev.processingCount files.length ::
        loopEvs fol files.length 1 files) ++ [Ev.pdfCombined]) = false
      rw [hasSummary_append, hasSummary_append, Bool.or_eq_false_iff, Bool.or_eq_false_iff]
      exact ⟨⟨h0, by simpa [hasSummary] using hl⟩, rfl⟩

/-- Across every path of `process_folder`, no attempted-vs-succeeded summary
event is ever emitted. -/
theorem process_folder_no_summary (fol : Folder) (outF : String) (mb : Option Box)
    (vi : Option Int) (pdf : Bool) (lim : Option Int) (u : String) :
    hasSummary (process_folder fol outF mb vi pdf lim u).events = false := by
  unfold process_folder
  dsimp only
  split
  · rfl
  · split
    · rfl
    · split
      · rfl
      · split
        · rfl
        · rename_i bounds evs0 heq
          have h0 := resolveBounds_no_summary heq
          split
          · show hasSummary (evs0 ++ gateEvsOf vi bounds ++ [Ev.aborted]) = false
            rw [hasSummary_append, hasSummary_append, Bool.or_eq_false_iff,
              Bool.or_eq_false_iff]
            exact ⟨⟨h0, gateEvsOf_no_summary vi bounds⟩, rfl⟩
          · apply loopStage_no_summary
            rw [hasSummary_append, hasSummary_append, Bool.or_eq_false_iff,
              Bool.or_eq_false_iff]
            exact ⟨⟨h0, gateEvsOf_no_summary vi bounds⟩, limEvsOf_no_summary lim⟩

/-- A run whose outcome is normal completion or the empty-assembly crash
must have passed every earlier exit: nonempty listing, readable reference,
resolved bounds, and a gate that did not abort. -/
theorem process_folder_reaches_loop (fol : Folder) (outF : String) (mb : Option Box)
    (vi : Option Int) (pdf : Bool) (lim : Option Int) (u : String)
    (h : (process_folder fol outF mb vi pdf lim u).outcome = Outcome.ok ∨
      (process_folder fol outF mb vi pdf lim u).outcome = Outcome.crashEmptyAssembly) :
    ∃ refName refImg bounds evs0,
      (pngFiles fol).isEmpty = false ∧
      pyIndex (pngFiles fol) (refIdxOf vi) = some refName ∧
      fol.data refName = some refImg ∧
      resolveBounds mb refImg = some (bounds, evs0) ∧
      (vi.isSome && (decide (u = "q") || decide (u = "Q"))) = false := by
  by_cases hemp : (pngFiles fol).isEmpty = true
  · exfalso
    unfold process_folder at h
    rw [if_pos hemp] at h
    rcases h with h | h <;> simp at h
  cases hidx : pyIndex (pngFiles fol) (refIdxOf vi) with
  | none =>
    exfalso
    unfold process_folder at h
    rw [if_neg hemp] at h
    rw [hidx] at h
    rcases h with h | h <;> simp at h
  | some refName =>
  cases hopen : fol.data refName with
  | none =>
    exfalso
    unfold process_folder at h
    rw [if_neg hemp] at h
    rw [hidx] at h
    dsimp only at h
    rw [hopen] at h
    rcases h with h | h <;> simp at h
  | some refImg =>
  cases hres : resolveBounds mb refImg with
  | none =>
    exfalso
    unfold process_folder at h
    rw [if_neg hemp] at h
    rw [hidx] at h
    dsimp only at h
    rw [hopen] at h
    dsimp only at h
    rw [hres] at h
    rcases h with h | h <;> simp at h
  | some be =>
  obtain ⟨bounds, evs0⟩ := be
  by_cases hgate : (vi.isSome && (decide (u = "q") || decide (u = "Q"))) = true
  · exfalso
    unfold process_folder at h
    rw [if_neg hemp] at h
    rw [hidx] at h
    dsimp only at h
    rw [hopen] at h
    dsimp only at h
    rw [hres] at h
    dsimp only at h
    rw [if_pos hgate] at h
    rcases h with h | h <;> simp at h
  refine ⟨refName, refImg, bounds, evs0, ?_, rfl, hopen, hres, ?_⟩
  · exact Bool.eq_false_iff.mpr hemp
  · exact Bool.eq_false_iff.mpr hgate

/-- C3 (amended): no attempted-vs-succeeded summary is ever printed — the
event the specification describes does not occur.  A run that reaches the
batch loop (normal completion or the empty-assembly crash) announces the
total attempted count once, before processing, and reports items
individually; there is no final summary after the last item. -/
theorem c3_no_final_summary (fol : Folder) (outF : String) (mb : Option Box)
    (vi : Option Int) (pdf : Bool) (lim : Option Int) (u : String)
    (h : (process_folder fol outF mb vi pdf lim u).outcome = Outcome.ok ∨
      (process_folder fol outF mb vi pdf lim u).outcome = Outcome.crashEmptyAssembly) :
    hasSummary (process_folder fol outF mb vi pdf lim u).events = false ∧
    Ev.processingCount (applyLimit lim (pngFiles fol)).length ∈
      (process_folder fol outF mb vi pdf lim u).events := by
  refine ⟨process_folder_no_summary fol outF mb vi pdf lim u, ?_⟩
  obtain ⟨refName, refImg, bounds, evs0, hne, hidx, hopen, hres, hgate⟩ :=
    process_folder_reaches_loop fol outF mb vi pdf lim u h
  rw [process_folder_char fol outF mb vi pdf lim u refName refImg bounds evs0
    hne hidx hopen hres hgate]
  rw [loopStage_eq]
  dsimp only
  cases pdf with
  | false =>
    show Ev.processingCount _ ∈ _ ++ Ev.processingCount _ :: _
    exact List.mem_append_right _ (List.mem_cons_self _ _)
  | true =>
    cases hp : itemPages fol bounds (applyLimit lim (pngFiles fol)) with
    | nil =>
      show Ev.processingCount _ ∈ _ ++ Ev.processingCount _ :: _
      exact List.mem_append_right _ (List.mem_cons_self _ _)
    | cons f r =>
      show Ev.processingCount _ ∈
        (_ ++ Ev.processingCount _ :: _) ++ [Ev.pdfCombined]
      refine List.mem_append_left _ ?_
      exact List.mem_append_right _ (List.mem_cons_self _ _)

/-- C3 counterexample: a complete 3-item run (one item failing).  The full
event stream is the manual-bounds notice, the before-loop count, and the
three per-item reports — there is no attempted-vs-succeeded summary after
the last item, contradicting the claim that one is always produced. -/
theorem c3_no_final_summary_counterexample :
    (process_folder fol3 "out" (some (0, 0, 5, 5)) none false none "").events
      = [Ev.usingManual (0, 0, 5, 5), Ev.processingCount 3, Ev.itemOk 1 3 "a.png",
         Ev.itemErr 2 3 "b.png", Ev.itemOk 3 3 "c.png"] ∧
    hasSummary (process_folder fol3 "out" (some (0, 0, 5, 5)) none false none "").events
      = false := by
  constructor
  · decide
  · decide

theorem c3_no_final_summary_witness :
    hasSummary (process_folder fol3 "out" (some (0, 0, 5, 5)) none false none "").events
        = false ∧
    Ev.processingCount 3 ∈
      (process_folder fol3 "out" (some (0, 0, 5, 5)) none false none "").events :=
  c3_no_final_summary fol3 "out" (some (0, 0, 5, 5)) none false none ""
    (Or.inl (by decide))

/-- C4: when document assembly is requested and no cropped image survived
the loop, `images.pop(0)` raises and the run ends in the empty-assembly
crash; the failure happens after the loop, so the files written by the loop
(exactly the per-item writes) are unchanged — identical to those of the
same run without assembly. -/
theorem c4_empty_assembly (fol : Folder) (outF : String) (mb : Option Box)
    (vi : Option Int) (lim : Option Int) (u : String)
    (refName : String) (refImg : Img) (bounds : Box) (evs0 : List Ev)
    (hne : (pngFiles fol).isEmpty = false)
    (href : pyIndex (pngFiles fol) (refIdxOf vi) = some refName)
    (hopen : fol.data refName = some refImg)
    (hbounds : resolveBounds mb refImg = some (bounds, evs0))
    (hgate : (vi.isSome && (decide (u = "q") || decide (u = "Q"))) = false)
    (hempty : itemPages fol bounds (applyLimit lim (pngFiles fol)) = []) :
    (process_folder fol outF mb vi true lim u).outcome = Outcome.crashEmptyAssembly ∧
    (process_folder fol outF mb vi true lim u).written =
      itemWrites fol outF bounds (applyLimit lim (pngFiles fol)) ∧
    (process_folder fol outF mb vi true lim u).written =
      (process_folder fol outF mb vi false lim u).written := by
  have h1 := process_folder_char fol outF mb vi true lim u refName refImg bounds evs0
    hne href hopen hbounds hgate
  have h2 := process_folder_char fol outF mb vi false lim u refName refImg bounds evs0
    hne href hopen hbounds hgate
  rw [h1, h2, loopStage_eq, loopStage_eq]
  dsimp only
  rw [hempty]
  exact ⟨rfl, rfl, rfl⟩

theorem c4_empty_assembly_witness :
    (process_folder fol2 "out" (some (0, 0, 5, 5)) (some 1) true (some 1) "").outcome
        = Outcome.crashEmptyAssembly ∧
    (process_folder fol2 "out" (some (0, 0, 5, 5)) (some 1) true (some 1) "").written =
      itemWrites fol2 "out" (0, 0, 5, 5) (applyLimit (some 1) (pngFiles fol2)) ∧
    (process_folder fol2 "out" (some (0, 0, 5, 5)) (some 1) true (some 1) "").written =
      (process_folder fol2 "out" (some (0, 0, 5, 5)) (some 1) false (some 1) "").written :=
  c4_empty_assembly fol2 "out" (some (0, 0, 5, 5)) (some 1) (some 1) "" "b.png" imA
    (0, 0, 5, 5) [Ev.usingManual (0, 0, 5, 5)] (by decide) (by decide) rfl rfl rfl rfl

/-- C5 (amended): in a batch with exactly one unreadable item, provided the
failing item is not the reference image opened for bounds determination
(with verification off, the first file in sorted order), the run completes:
exactly one per-item failure is recorded, the other `N - 1` items each
produce their output, and the written files are exactly what processing the
batch without the bad item would write.  (If the single bad item IS the
reference file, the unguarded reference open raises and the whole run
aborts — see the counterexample.) -/
theorem c5_fault_isolation (fol : Folder) (outF : String) (b : Box) (u : String)
    (bad : String)
    (hne : (pngFiles fol).isEmpty = false)
    (hbadm : bad ∈ pngFiles fol)
    (hbad : fol.data bad = none)
    (hcount : (pngFiles fol).count bad = 1)
    (hgood : ∀ f ∈ pngFiles fol, f ≠ bad → (fol.data f).isSome = true)
    (hhead : (pngFiles fol).head? ≠ some bad) :
    (process_folder fol outF (some b) none false none u).outcome = Outcome.ok ∧
    (process_folder fol outF (some b) none false none u).events.countP isErrEv = 1 ∧
    (process_folder fol outF (some b) none false none u).events.countP isOkEv =
      (pngFiles fol).length - 1 ∧
    (process_folder fol outF (some b) none false none u).written =
      itemWrites fol outF b (pngFiles fol) ∧
    (process_folder fol outF (some b) none false none u).written =
      itemWrites fol outF b ((pngFiles fol).filter (fun f => f ≠ bad)) ∧
    (process_folder fol outF (some b) none false none u).written.length =
      (pngFiles fol).length - 1 := by
  obtain ⟨f0, rest, hf⟩ : ∃ f0 rest, pngFiles fol = f0 :: rest := by
    cases hfl : pngFiles fol with
    | nil => rw [hfl] at hne; simp at hne
    | cons a l => exact ⟨a, l, rfl⟩
  have hf0bad : f0 ≠ bad := by
    intro heq
    apply hhead
    rw [hf, heq]
    rfl
  have hm : f0 ∈ pngFiles fol := by rw [hf]; exact List.mem_cons_self f0 rest
  have href : pyIndex (pngFiles fol) (refIdxOf none) = some f0 := by
    show pyIndex (pngFiles fol) 0 = some f0
    rw [pyIndex_zero, hf]
    rfl
  obtain ⟨refImg, hopen⟩ := Option.isSome_iff_exists.mp (hgood f0 hm hf0bad)
  have hchar := process_folder_char fol outF (some b) none false none u f0 refImg b
    [Ev.usingManual b] hne href hopen (resolveBounds_manual b refImg) rfl
  have hnone1 : (pngFiles fol).countP (fun f => (fol.data f).isNone) = 1 := by
    have hpt : ∀ f ∈ pngFiles fol,
        ((fol.data f).isNone = true ↔ (f == bad) = true) := by
      intro f hfm
      by_cases hfb : f = bad
      · subst hfb
        rw [hbad]
        simp
      · have hs := hgood f hfm hfb
        cases hdf : fol.data f with
        | none => rw [hdf] at hs; simp at hs
        | some x => simp [hfb]
    calc (pngFiles fol).countP (fun f => (fol.data f).isNone)
        = (pngFiles fol).countP (fun f => f == bad) := List.countP_congr hpt
      _ = (pngFiles fol).count bad := (List.count_eq_countP bad _).symm
      _ = 1 := hcount
  have hok : (pngFiles fol).countP (fun f => (fol.data f).isSome) =
      (pngFiles fol).length - 1 := by
    have hsum := List.length_eq_countP_add_countP
      (fun f => (fol.data f).isSome) (pngFiles fol)
    have hcompl : (pngFiles fol).countP
        (fun f => decide ¬((fol.data f).isSome = true)) = 1 := by
      rw [← hnone1]
      apply List.countP_congr
      intro f _
      cases fol.data f <;> simp
    omega
  rw [hchar, loopStage_eq]
  dsimp only
  refine ⟨rfl, ?_, ?_, rfl, ?_, ?_⟩
  · show (([Ev.usingManual b] ++ gateEvsOf none b ++ limEvsOf none) ++
      Ev.processingCount _ ::
        loopEvs fol _ 1 (applyLimit none (pngFiles fol))).countP isErrEv = 1
    rw [List.countP_append, List.countP_cons, loopEvs_countP_err]
    show 0 + ((pngFiles fol).countP (fun f => (fol.data f).isNone) + 0) = 1
    rw [hnone1]
  · show (([Ev.usingManual b] ++ gateEvsOf none b ++ limEvsOf none) ++
      Ev.processingCount _ ::
        loopEvs fol _ 1 (applyLimit none (pngFiles fol))).countP isOkEv =
      (pngFiles fol).length - 1
    rw [List.countP_append, List.countP_cons, loopEvs_countP_ok]
    show 0 + ((pngFiles fol).countP (fun f => (fol.data f).isSome) + 0) =
      (pngFiles fol).length - 1
    rw [hok]
    omega
  · exact itemWrites_skip fol outF b (pngFiles fol) bad hbad
  · show (itemWrites fol outF b (applyLimit none (pngFiles fol))).length =
      (pngFiles fol).length - 1
    rw [itemWrites_length]
    exact hok

/-- C5 counterexample: three files where the single corrupt one (`a.png`)
is the reference image.  The run crashes opening the reference before any
item is processed: the other two readable items produce no output at all,
contradicting the claim that one bad item never aborts the batch. -/
theorem c5_fault_isolation_counterexample :
    (process_folder folBadRef "out" (some (0, 0, 5, 5)) none false none "").outcome
        = Outcome.crashOpenRef ∧
    (process_folder folBadRef "out" (some (0, 0, 5, 5)) none false none "").written
        = [] ∧
    (process_folder folBadRef "out" (some (0, 0, 5, 5)) none false none "").events.countP
        isOkEv = 0 := by
  refine ⟨by decide, rfl, by decide⟩

theorem c5_fault_isolation_witness :
    (process_folder fol3 "out" (some (0, 0, 5, 5)) none false none "").outcome
        = Outcome.ok ∧
    (process_folder fol3 "out" (some (0, 0, 5, 5)) none false none "").events.countP
        isErrEv = 1 ∧
    (process_folder fol3 "out" (some (0, 0, 5, 5)) none false none "").events.countP
        isOkEv = (pngFiles fol3).length - 1 ∧
    (process_folder fol3 "out" (some (0, 0, 5, 5)) none false none "").written =
      itemWrites fol3 "out" (0, 0, 5, 5) (pngFiles fol3) ∧
    (process_folder fol3 "out" (some (0, 0, 5, 5)) none false none "").written =
      itemWrites fol3 "out" (0, 0, 5, 5) ((pngFiles fol3).filter (fun f => f ≠ "b.png")) ∧
    (process_folder fol3 "out" (some (0, 0, 5, 5)) none false none "").written.length =
      (pngFiles fol3).length - 1 :=
  c5_fault_isolation fol3 "out" (0, 0, 5, 5) "" "b.png" (by decide) (by decide) rfl
    (by decide) (by decide) (by decide)

/-- C6: the batch is the lexicographically sorted permutation of the PNG
names (Python `sorted`), and a successful assembly writes the PDF whose
pages are exactly the crops of the readable items in that sorted order —
failed items omitted, survivors not reordered. -/
theorem c6_batch_order (fol : Folder) (outF : String) (b : Box) (u : String)
    (hok : (process_folder fol outF (some b) none true none u).outcome = Outcome.ok) :
    (pngFiles fol).Sorted pyStrLeR ∧
    (pngFiles fol).Perm (fol.names.filter isPng) ∧
    (process_folder fol outF (some b) none true none u).written =
      itemWrites fol outF b (pngFiles fol) ++
        [(outF ++ "/all-cropped.pdf", FileOut.pdf (itemPages fol b (pngFiles fol)))] := by
  refine ⟨List.sorted_insertionSort pyStrLeR _, List.perm_insertionSort pyStrLeR _, ?_⟩
  obtain ⟨refName, refImg, bounds, evs0, hne, hidx, hopen, hres, hgate⟩ :=
    process_folder_reaches_loop fol outF (some b) none true none u (Or.inl hok)
  have hres' := hres
  rw [resolveBounds_manual] at hres'
  simp only [Option.some.injEq, Prod.mk.injEq] at hres'
  obtain ⟨rfl, rfl⟩ := hres'
  have hchar := process_folder_char fol outF (some b) none true none u refName refImg
    b _ hne hidx hopen (resolveBounds_manual b refImg) hgate
  rw [hchar, loopStage_eq] at hok ⊢
  dsimp only at hok ⊢
  cases hp : itemPages fol b (applyLimit none (pngFiles fol)) with
  | nil =>
    rw [hp] at hok
    simp at hok
  | cons f r =>
    have hp' : itemPages fol b (pngFiles fol) = f :: r := hp
    rw [hp']
    rfl

theorem c6_batch_order_witness :
    pngFiles folW = ["a.png", "b.png", "c.png"] ∧
    (pngFiles folW).Sorted pyStrLeR ∧
    (pngFiles folW).Perm (folW.names.filter isPng) ∧
    (process_folder folW "out" (some (0, 0, 5, 5)) none true none "").written =
      itemWrites folW "out" (0, 0, 5, 5) (pngFiles folW) ++
        [("out" ++ "/all-cropped.pdf",
          FileOut.pdf (itemPages folW (0, 0, 5, 5) (pngFiles folW)))] := by
  have h := c6_batch_order folW "out" (0, 0, 5, 5) "" (by decide)
  exact ⟨by decide, h.1, h.2.1, h.2.2⟩

/-- C9 (amended): a limit of `0` is falsy in Python, so it is identical to
passing no limit — the full batch is processed; a positive limit `k`
truncates to the first `k` sorted filenames.  However a NEGATIVE limit is
also truthy and also truncates (Python slice `l[:k]` drops the last `|k|`
items), so it is not true that only strictly positive limits truncate. -/
theorem c9_limit_semantics (fol : Folder) (outF : String) (mb : Option Box)
    (vi : Option Int) (pdf : Bool) (u : String) (k : Int) :
    process_folder fol outF mb vi pdf (some 0) u =
      process_folder fol outF mb vi pdf none u ∧
    (0 < k → applyLimit (some k) (pngFiles fol) = (pngFiles fol).take k.toNat) ∧
    (k < 0 → applyLimit (some k) (pngFiles fol) =
      (pngFiles fol).take ((pngFiles fol).length - (-k).toNat)) := by
  refine ⟨rfl, ?_, ?_⟩
  · intro hk
    simp only [applyLimit, pySliceTo]
    rw [if_neg (by omega : ¬k = 0), if_pos (by omega : (0 : Int) ≤ k)]
  · intro hk
    simp only [applyLimit, pySliceTo]
    rw [if_neg (by omega : ¬k = 0), if_neg (by omega : ¬(0 : Int) ≤ k)]

/-- C9 counterexample: the limit `-1` is neither `None` nor positive, yet it
truncates the 3-file batch to its first 2 files — `c.png` is never
processed — refuting "only a strictly positive limit truncates". -/
theorem c9_limit_semantics_counterexample :
    (process_folder fol3 "out" (some (0, 0, 5, 5)) none false (some (-1)) "").events
      = [Ev.usingManual (0, 0, 5, 5), Ev.limiting (-1), Ev.processingCount 2,
         Ev.itemOk 1 2 "a.png", Ev.itemErr 2 2 "b.png"] ∧
    Ev.itemOk 3 3 "c.png" ∉
      (process_folder fol3 "out" (some (0, 0, 5, 5)) none false (some (-1)) "").events ∧
    ¬(0 < (-1 : Int)) := by
  refine ⟨by decide, by decide, by decide⟩

theorem c9_limit_semantics_witness :
    (process_folder fol3 "out" (some (0, 0, 5, 5)) none false (some 0) "" =
      process_folder fol3 "out" (some (0, 0, 5, 5)) none false none "") ∧
    applyLimit (some 2) (pngFiles fol3) = (pngFiles fol3).take (2 : Int).toNat ∧
    applyLimit (some (-1)) (pngFiles fol3) =
      (pngFiles fol3).take ((pngFiles fol3).length - (-(-1) : Int).toNat) :=
  ⟨(c9_limit_semantics fol3 "out" (some (0, 0, 5, 5)) none false "" 2).1,
    (c9_limit_semantics fol3 "out" (some (0, 0, 5, 5)) none false "" 2).2.1 (by norm_num),
    (c9_limit_semantics fol3 "out" (some (0, 0, 5, 5)) none false "" (-1)).2.2
      (by norm_num)⟩
